import Mathlib

/-!
Verification of the conversation/session core of the Guardian AI application
(`src/app.py`): credential store, medical-record seeding, conversation store
(append / windowed history / pair deletion), transcript assembly, and the chat
turn handler. SQL tables are embedded as Lean lists in insertion order; SQL
`datetime` timestamps are embedded as `Nat`. The external LLM call is embedded
as an `Except String String` parameter (its success value or raised exception).
-/

/-- A row of the `chat_messages` table: `(username, role, content, timestamp)`. -/
structure ChatMessage where
  username : String
  role : String
  content : String
  timestamp : Nat
deriving DecidableEq, Repr

/-- A row as returned by `load_chat_history`: the dict
`{"role": r, "content": c, "timestamp": t}` (the username column is projected away). -/
structure HistEntry where
  role : String
  content : String
  timestamp : Nat
deriving DecidableEq, Repr

/-- Projection of a stored row to the dict shape `load_chat_history` returns. -/
def ChatMessage.toEntry (m : ChatMessage) : HistEntry :=
  ⟨m.role, m.content, m.timestamp⟩

/-- The `ORDER BY timestamp ASC` comparison on rows. -/
def tsLE (a b : ChatMessage) : Prop := a.timestamp ≤ b.timestamp

instance : DecidableRel tsLE := fun a b => Nat.decLe a.timestamp b.timestamp

instance : IsTotal ChatMessage tsLE := ⟨fun a b => Nat.le_total a.timestamp b.timestamp⟩

instance : IsTrans ChatMessage tsLE := ⟨fun _ _ _ => Nat.le_trans⟩

/-- `save_chat_to_db(username, role, content)`: one `INSERT INTO chat_messages`,
with the timestamp (`datetime.now()` in the source) passed explicitly. -/
def saveChatToDb (db : List ChatMessage) (username role content : String)
    (ts : Nat) : List ChatMessage :=
  db ++ [⟨username, role, content, ts⟩]

/-- `load_chat_history(username, limit=50)`:
`SELECT role, content, timestamp FROM chat_messages WHERE username=?
ORDER BY timestamp ASC LIMIT ?`. -/
def loadChatHistory (db : List ChatMessage) (username : String)
    (limit : Nat) : List HistEntry :=
  (((db.filter fun m => m.username == username).insertionSort tsLE).map
    ChatMessage.toEntry).take limit

/-- The `WHERE` clause of the first `DELETE` in `delete_chat_pair`:
`username=? AND role='user' AND timestamp=?`. -/
def userMatches (u : String) (t : Nat) (m : ChatMessage) : Bool :=
  m.username == u && (m.role == "user" && (m.timestamp == t))

/-- The `WHERE` clause of the second `DELETE` in `delete_chat_pair`:
`username=? AND role='assistant' AND timestamp > ?`. -/
def assistantAfter (u : String) (t : Nat) (m : ChatMessage) : Bool :=
  m.username == u && (m.role == "assistant" && decide (t < m.timestamp))

/-- The row selected by `ORDER BY timestamp ASC LIMIT 1`: a row of minimal
timestamp among the candidates (the earlier stored row on a timestamp tie). -/
def minByTimestamp : List ChatMessage → Option ChatMessage
  | [] => none
  | m :: ms =>
    match minByTimestamp ms with
    | none => some m
    | some b => if m.timestamp ≤ b.timestamp then some m else some b

/-- `delete_chat_pair(username, user_timestamp)`: first `DELETE` removes every
row matching `username, role='user', timestamp`; the second `DELETE` then
(unconditionally) removes the single `role='assistant'` row of that user with
the smallest timestamp strictly greater than `user_timestamp`, if any. -/
def deleteChatPair (db : List ChatMessage) (u : String) (t : Nat) :
    List ChatMessage :=
  let afterUser := db.filter fun m => !userMatches u t m
  match minByTimestamp (afterUser.filter (assistantAfter u t)) with
  | none => afterUser
  | some a => afterUser.eraseP fun m => decide (m = a)

/-- A row of the `medical_history` table. -/
structure MedicalRecord where
  user_id : String
  date : String
  substance : String
  dosage : String
  reaction : String
deriving DecidableEq, Repr

/-- Python's `str.lower()` restricted to its ASCII behaviour, embedded so it
evaluates in the kernel (cased usernames here are ASCII). -/
def lowerString (s : String) : String := ⟨s.data.map Char.toLower⟩

/-- `seed_demo_data(username)`: the fixed records inserted for the new user,
keyed by a case-insensitive match of the username. -/
def seedDemoData (username : String) : List MedicalRecord :=
  if lowerString username == "user1" then
    [⟨username, "2023-10-12", "Xanax (Alprazolam)", "0.5mg (Prescribed Daily)",
      "Anxiety management"⟩,
     ⟨username, "2024-05-20", "Alcohol + Xanax", "3 beers", "Severe panic attack"⟩]
  else if lowerString username == "user2" then
    [⟨username, "2023-08-15", "Metformin", "500mg (Prescribed Daily)",
      "Diabetes management"⟩,
     ⟨username, "2024-11-02", "Alcohol + Metformin", "2 glasses wine",
      "Nausea, panic"⟩]
  else
    [⟨username, "2025-01-01", "General", "N/A", "Initial baseline"⟩]

/-- The Create Account handler: `INSERT INTO users VALUES (?,?)` (the username
is the primary key, so a duplicate raises `IntegrityError` and changes
nothing), and only after a successful insert `seed_demo_data(new_u)` runs.
Returns the new users table, the new medical table, and a success flag. -/
def createAccount (users : List (String × String)) (medical : List MedicalRecord)
    (username hashed : String) :
    List (String × String) × List MedicalRecord × Bool :=
  if users.any fun p => p.1 == username then (users, medical, false)
  else (users ++ [(username, hashed)], medical ++ seedDemoData username, true)

/-- The f-string `system_msg` of `get_ai_response`, parameterised by
`history_context` (the rendering of the user's medical records). -/
def systemMsg (historyContext : String) : String :=
  "\nYou are a Medical Guardian AI.\n\nDATABASE RECORDS:\n" ++ historyContext ++
    "\n\nRULES:\n1. Read records first\n2. Detect alcohol + medication interaction\n3. Ask dosage questions\n4. Give safety steps\n"

/-- A message dict handed to the completion API: the history dicts carry their
timestamp key, the system and trailing user dicts do not. -/
structure PromptMessage where
  role : String
  content : String
  timestamp : Option Nat
deriving DecidableEq, Repr

/-- A history dict as it is spliced into the `messages` list. -/
def HistEntry.toPrompt (e : HistEntry) : PromptMessage :=
  ⟨e.role, e.content, some e.timestamp⟩

/-- The `messages` list built in `get_ai_response`:
`[system] + load_chat_history(username) + [{"role": "user", "content": user_input}]`
(the history call uses the default `limit=50`, passed explicitly here). -/
def getAiMessages (historyContext : String) (db : List ChatMessage)
    (username userInput : String) : List PromptMessage :=
  ⟨"system", systemMsg historyContext, none⟩ ::
    ((loadChatHistory db username 50).map HistEntry.toPrompt ++
      [⟨"user", userInput, none⟩])

/-- Outcome of one chat turn: the chat table afterwards, whether
`get_ai_response` (and so the external completion API) was invoked, and what
the turn surfaces (`Except.error` means the exception propagated uncaught). -/
structure TurnOutcome where
  chats : List ChatMessage
  llmInvoked : Bool
  surfaced : Except String String
deriving Repr

/-- The chat-input turn handler: it saves the user message, then always calls
`get_ai_response` (there is no guardrail and no try/except around the call);
on success it displays and saves the assistant reply, and if the call raises,
the exception propagates and nothing further is saved. -/
def handleChatTurn (db : List ChatMessage) (username prompt : String)
    (t1 t2 : Nat) (llm : Except String String) : TurnOutcome :=
  let db1 := saveChatToDb db username "user" prompt t1
  match llm with
  | Except.ok r => ⟨saveChatToDb db1 username "assistant" r t2, true, Except.ok r⟩
  | Except.error e => ⟨db1, true, Except.error e⟩

/-- The `messages` list sent to the completion API during one turn: the user
message is saved first, then `get_ai_response` re-loads the stored history. -/
def turnPromptMessages (historyContext : String) (db : List ChatMessage)
    (username prompt : String) (t : Nat) : List PromptMessage :=
  getAiMessages historyContext (saveChatToDb db username "user" prompt t)
    username prompt

/-- Store used to exhibit the behaviour of `delete_chat_pair` on a timestamp
with no matching user message: a single assistant row at timestamp 5. -/
def exDb2 : List ChatMessage := [⟨"alice", "assistant", "reply", 5⟩]

/-- Store used to exhibit a normal pair deletion: two alice exchanges plus an
unrelated bob message sharing timestamp 1 with the deleted alice message. -/
def exDb4 : List ChatMessage :=
  [⟨"alice", "user", "q1", 1⟩, ⟨"alice", "assistant", "a1", 2⟩,
   ⟨"alice", "user", "q2", 3⟩, ⟨"alice", "assistant", "a2", 4⟩,
   ⟨"bob", "user", "bq", 1⟩]

/-- Store used for the history-window claims: one alice user/assistant
exchange at timestamps 1 and 2. -/
def exDb3 : List ChatMessage :=
  [⟨"alice", "user", "first", 1⟩, ⟨"alice", "assistant", "second", 2⟩]

/-- Store holding 50 messages of user `a` at timestamps 1..50, enough to fill
the default history window completely. -/
def exDb8 : List ChatMessage :=
  (List.range 50).map fun i => ⟨"a", "user", "x", i + 1⟩

/-- Store holding 51 messages of user `a` at timestamps 1..51, one more than
the default history window. -/
def bigDb51 : List ChatMessage :=
  (List.range 51).map fun i => ⟨"a", "user", "x", i + 1⟩

/-- Claim C6: re-registering an existing username fails (surfacing the
duplicate-username error), and the users table — in particular the stored hash
of that username — is unchanged; the medical table is also untouched. -/
theorem c6_duplicate_register_leaves_store_unchanged
    (users : List (String × String)) (medical : List MedicalRecord)
    (u h0 hp : String) (hmem : (u, h0) ∈ users) :
    (createAccount users medical u hp).2.2 = false ∧
      (createAccount users medical u hp).1 = users ∧
      (createAccount users medical u hp).2.1 = medical ∧
      (u, h0) ∈ (createAccount users medical u hp).1 := by
  have hany : (users.any fun p => p.1 == u) = true :=
    List.any_eq_true.mpr ⟨(u, h0), hmem, by simp⟩
  refine ⟨?_, ?_, ?_, ?_⟩ <;> simp [createAccount, hany, hmem]

/-- Concrete instance of C6: registering `alice` again fails and keeps her hash. -/
theorem c6_witness :
    ("alice", "h0") ∈ [("alice", "h0"), ("bob", "h1")] ∧
      ((createAccount [("alice", "h0"), ("bob", "h1")] [] "alice" "h2").2.2 = false ∧
        (createAccount [("alice", "h0"), ("bob", "h1")] [] "alice" "h2").1 =
          [("alice", "h0"), ("bob", "h1")] ∧
        (createAccount [("alice", "h0"), ("bob", "h1")] [] "alice" "h2").2.1 = [] ∧
        ("alice", "h0") ∈ (createAccount [("alice", "h0"), ("bob", "h1")] [] "alice" "h2").1) :=
  ⟨by decide,
    c6_duplicate_register_leaves_store_unchanged
      [("alice", "h0"), ("bob", "h1")] [] "alice" "h0" "h2" (by decide)⟩

/-- Claim C9: a registration that fails on a duplicate username never reaches
the seeding routine, so the medical table is unchanged; a successful
registration seeds exactly once, appending two fixed records when the username
matches `user1` or `user2` case-insensitively and one baseline record
otherwise. -/
theorem c9_seed_runs_once_per_successful_registration
    (users : List (String × String)) (medical : List MedicalRecord)
    (u hp : String) :
    ((users.any fun p => p.1 == u) = true →
      (createAccount users medical u hp).2.1 = medical) ∧
    ((users.any fun p => p.1 == u) = false →
      (createAccount users medical u hp).2.1 = medical ++ seedDemoData u) ∧
    (lowerString u = "user1" ∨ lowerString u = "user2" → (seedDemoData u).length = 2) ∧
    (lowerString u ≠ "user1" → lowerString u ≠ "user2" → (seedDemoData u).length = 1) := by
  refine ⟨fun hdup => by simp [createAccount, hdup],
    fun hfresh => by simp [createAccount, hfresh], fun hcase => ?_,
    fun h1 h2 => ?_⟩
  · rcases hcase with hc | hc <;> simp [seedDemoData, hc]
  · simp [seedDemoData, h1, h2]

/-- Concrete instance of C9: a duplicate registration leaves the medical table
alone, and a fresh registration of `User1` seeds exactly the two demo rows. -/
theorem c9_witness :
    (([("User1", "h")].any fun p => p.1 == "User1") = true ∧
      (createAccount [("User1", "h")] [] "User1" "h2").2.1 = []) ∧
    (([] : List (String × String)).any (fun p => p.1 == "User1") = false ∧
      (createAccount [] [] "User1" "h").2.1 = [] ++ seedDemoData "User1") ∧
    (lowerString "User1" = "user1" ∨ lowerString "User1" = "user2") ∧
    (seedDemoData "User1").length = 2 := by
  refine ⟨⟨by decide, (c9_seed_runs_once_per_successful_registration
      [("User1", "h")] [] "User1" "h2").1 (by decide)⟩,
    ⟨by decide, (c9_seed_runs_once_per_successful_registration
      [] [] "User1" "h").2.1 (by decide)⟩,
    Or.inl (by decide),
    (c9_seed_runs_once_per_successful_registration [] [] "User1" "h").2.2.1
      (Or.inl (by decide))⟩

theorem minByTimestamp_eq_none {l : List ChatMessage}
    (h : minByTimestamp l = none) : l = [] := by
  cases l with
  | nil => rfl
  | cons a l =>
    exfalso
    rw [minByTimestamp] at h
    split at h
    · simp at h
    · split at h <;> simp at h

theorem minByTimestamp_mem : ∀ {l : List ChatMessage} {m : ChatMessage},
    minByTimestamp l = some m → m ∈ l := by
  intro l
  induction l with
  | nil => intro m h; simp [minByTimestamp] at h
  | cons a l ih =>
    intro m h
    rw [minByTimestamp] at h
    split at h
    · obtain rfl := Option.some_inj.mp h
      exact List.mem_cons_self a l
    · next b heq =>
        split at h
        · obtain rfl := Option.some_inj.mp h
          exact List.mem_cons_self a l
        · obtain rfl := Option.some_inj.mp h
          exact List.mem_cons_of_mem a (ih heq)

theorem minByTimestamp_le : ∀ {l : List ChatMessage} {m : ChatMessage},
    minByTimestamp l = some m → ∀ x ∈ l, m.timestamp ≤ x.timestamp := by
  intro l
  induction l with
  | nil => intro m h; simp [minByTimestamp] at h
  | cons a l ih =>
    intro m h x hx
    rw [minByTimestamp] at h
    split at h
    · next heq =>
        obtain rfl := Option.some_inj.mp h
        have hl := minByTimestamp_eq_none heq
        subst hl
        rcases List.mem_singleton.mp hx with rfl
        exact Nat.le_refl _
    · next b heq =>
        split at h
        · next hab =>
            obtain rfl := Option.some_inj.mp h
            rcases List.mem_cons.mp hx with rfl | hx'
            · exact Nat.le_refl _
            · exact Nat.le_trans hab (ih heq x hx')
        · next hab =>
            obtain rfl := Option.some_inj.mp h
            rcases List.mem_cons.mp hx with rfl | hx'
            · exact Nat.le_of_not_le hab
            · exact ih heq x hx'

theorem minByTimestamp_ne_none_of_mem {l : List ChatMessage} {x : ChatMessage}
    (hx : x ∈ l) : ∃ m, minByTimestamp l = some m := by
  cases hm : minByTimestamp l with
  | none => rw [minByTimestamp_eq_none hm] at hx; exact absurd hx (List.not_mem_nil x)
  | some m => exact ⟨m, rfl⟩

theorem exists_min_assistant {db1 : List ChatMessage} {u : String} {t : Nat}
    {w : ChatMessage} (hw : w ∈ db1) (hwp : assistantAfter u t w = true) :
    ∃ am, minByTimestamp (db1.filter (assistantAfter u t)) = some am ∧
      am ∈ db1 ∧ am.username = u ∧ am.role = "assistant" ∧ t < am.timestamp ∧
      ∀ m ∈ db1, assistantAfter u t m = true → am.timestamp ≤ m.timestamp := by
  have hwf : w ∈ db1.filter (assistantAfter u t) := List.mem_filter.mpr ⟨hw, hwp⟩
  obtain ⟨am, ham⟩ := minByTimestamp_ne_none_of_mem hwf
  have hamf := minByTimestamp_mem ham
  obtain ⟨ham1, ham2⟩ := List.mem_filter.mp hamf
  have hfields : am.username = u ∧ am.role = "assistant" ∧ t < am.timestamp := by
    simpa [assistantAfter, Bool.and_eq_true, beq_iff_eq,
      decide_eq_true_eq] using ham2
  refine ⟨am, ham, ham1, hfields.1, hfields.2.1, hfields.2.2, fun m hm hp => ?_⟩
  exact minByTimestamp_le ham m (List.mem_filter.mpr ⟨hm, hp⟩)

theorem countP_disj_of_ne {α : Type} [DecidableEq α] {a b : α} (hab : a ≠ b)
    (l : List α) :
    l.countP (fun x => decide (x = a) || decide (x = b)) =
      l.countP (fun x => decide (x = a)) + l.countP (fun x => decide (x = b)) := by
  induction l with
  | nil => simp
  | cons x l ih =>
    rw [List.countP_cons, List.countP_cons, List.countP_cons, ih]
    by_cases hxa : x = a
    · subst hxa
      have hxb : (x = b) = False := by simp [hab]
      simp [hxb]
      omega
    · by_cases hxb : x = b
      · subst hxb
        have hxa' : (x = a) = False := by simp [hxa]
        simp [hxa']
        omega
      · simp [hxa, hxb]

theorem countP_eq_one_of_pairwise_ts {db : List ChatMessage} {u : String}
    {a : ChatMessage}
    (hU : (db.filter fun m => m.username == u).Pairwise
      fun x y => x.timestamp ≠ y.timestamp)
    (ha : a ∈ db) (hu : a.username = u) :
    db.countP (fun m => decide (m = a)) = 1 := by
  have hfu : a ∈ db.filter fun m => m.username == u :=
    List.mem_filter.mpr ⟨ha, by simp [hu]⟩
  have hnd : (db.filter fun m => m.username == u).Nodup :=
    hU.imp fun hxy hxyeq => hxy (by rw [hxyeq])
  have h1 : (db.filter fun m => m.username == u).countP
      (fun m => decide (m = a)) = 1 := by
    have h2 := List.count_eq_one_of_mem hnd hfu
    simpa [List.count_eq_countP] using h2
  rw [List.countP_filter] at h1
  rw [← h1]
  apply List.countP_congr
  intro m _
  by_cases hma : m = a
  · subst hma; simp [hu]
  · simp [hma]

theorem countP_filter_le {α : Type} (p q : α → Bool) (l : List α) :
    (l.filter q).countP p ≤ l.countP p := by
  rw [List.countP_filter]
  apply List.countP_mono_left
  intro x _ hx
  exact (Bool.and_eq_true _ _ ▸ hx).1

theorem eraseP_eq_filter_of_countP_le_one {α : Type} {p : α → Bool} :
    ∀ {l : List α}, l.countP p ≤ 1 → l.eraseP p = l.filter fun x => !p x := by
  intro l
  induction l with
  | nil => intro _; rfl
  | cons x l ih =>
    intro h
    rw [List.countP_cons] at h
    by_cases hx : p x
    · have hif : (if p x then 1 else 0) = 1 := by simp [hx]
      rw [hif] at h
      have h0 : l.countP p = 0 := by omega
      have hself : l.filter (fun y => !p y) = l :=
        List.filter_eq_self.mpr fun a hal => by
          have := List.countP_eq_zero.mp h0 a hal
          simp [this]
      simp [List.eraseP_cons, List.filter_cons, hx, hself]
    · have hif : (if p x then 1 else 0) = 0 := by simp [hx]
      rw [hif] at h
      have hle : l.countP p ≤ 1 := by omega
      simp [List.eraseP_cons, List.filter_cons, hx, ih hle]

/-- Claim C2 counterexample: `exDb2` holds no user message of `alice` at
timestamp 3, yet `delete_chat_pair("alice", 3)` is not a no-op — it deletes
the assistant row at timestamp 5, emptying the store. -/
theorem c2_counterexample :
    (∀ m ∈ exDb2, ¬(m.username = "alice" ∧ m.role = "user" ∧ m.timestamp = 3)) ∧
      deleteChatPair exDb2 "alice" 3 = [] ∧ exDb2 ≠ [] := by
  decide

/-- Claim C2 as amended: when no user message of `u` carries timestamp `t`,
`delete_chat_pair` leaves the store unchanged only if `u` also has no
assistant message with a strictly greater timestamp; otherwise it still
deletes exactly one row, namely the earliest such assistant message. -/
theorem c2_delete_pair_no_user_match (db : List ChatMessage) (u : String)
    (t : Nat) (hnu : ∀ m ∈ db, userMatches u t m = false) :
    ((∀ m ∈ db, assistantAfter u t m = false) → deleteChatPair db u t = db) ∧
    (∀ w ∈ db, assistantAfter u t w = true →
      ∃ am ∈ db, am.username = u ∧ am.role = "assistant" ∧ t < am.timestamp ∧
        (∀ m ∈ db, assistantAfter u t m = true → am.timestamp ≤ m.timestamp) ∧
        deleteChatPair db u t = db.eraseP (fun m => decide (m = am)) ∧
        (deleteChatPair db u t).length + 1 = db.length) := by
  have hdb1 : (db.filter fun m => !userMatches u t m) = db :=
    List.filter_eq_self.mpr fun m hm => by simp [hnu m hm]
  constructor
  · intro hna
    have hcand : db.filter (assistantAfter u t) = [] :=
      List.filter_eq_nil_iff.mpr fun m hm => by simp [hna m hm]
    simp only [deleteChatPair, hdb1, hcand]
    rfl
  · intro w hw hwp
    obtain ⟨am, hmin, hamdb, hamu, hamr, hamt, hammin⟩ :=
      exists_min_assistant hw hwp
    have hdel : deleteChatPair db u t = db.eraseP fun m => decide (m = am) := by
      simp only [deleteChatPair, hdb1, hmin]
    have hlen : (deleteChatPair db u t).length + 1 = db.length := by
      rw [hdel, List.length_eraseP_of_mem hamdb (by simp)]
      have := List.length_pos.mpr (List.ne_nil_of_mem hamdb)
      omega
    exact ⟨am, hamdb, hamu, hamr, hamt, hammin, hdel, hlen⟩

/-- Concrete instance of the amended C2: on `exDb2`, deleting at the absent
timestamp 3 removes the assistant row at timestamp 5. -/
theorem c2_witness :
    (∀ m ∈ exDb2, userMatches "alice" 3 m = false) ∧
      (∃ am ∈ exDb2, am.username = "alice" ∧ am.role = "assistant" ∧
        3 < am.timestamp ∧
        (∀ m ∈ exDb2, assistantAfter "alice" 3 m = true →
          am.timestamp ≤ m.timestamp) ∧
        deleteChatPair exDb2 "alice" 3 = exDb2.eraseP (fun m => decide (m = am)) ∧
        (deleteChatPair exDb2 "alice" 3).length + 1 = exDb2.length) :=
  ⟨by decide,
    (c2_delete_pair_no_user_match exDb2 "alice" 3 (by decide)).2
      ⟨"alice", "assistant", "reply", 5⟩ (by decide) (by decide)⟩

/-- Claim C4: deleting an existing user message of `u` at timestamp `t` that
is followed by at least one assistant message of `u` removes exactly two rows
— that user message and the assistant message of `u` with the smallest
timestamp greater than `t` — and leaves every other row (of `u` and of every
other user) in place, in order. Timestamp uniqueness per user is the store
invariant the spec demands of the timestamp identifier. -/
theorem c4_delete_pair_removes_exactly_the_pair (db : List ChatMessage)
    (u : String) (t : Nat) (um : ChatMessage)
    (hU : (db.filter fun m => m.username == u).Pairwise
      fun x y => x.timestamp ≠ y.timestamp)
    (hum : um ∈ db) (hu : um.username = u) (hr : um.role = "user")
    (ht : um.timestamp = t) (w : ChatMessage) (hw : w ∈ db)
    (hwu : w.username = u) (hwr : w.role = "assistant") (hwt : t < w.timestamp) :
    ∃ am ∈ db, am.username = u ∧ am.role = "assistant" ∧ t < am.timestamp ∧
      (∀ m ∈ db, m.username = u → m.role = "assistant" → t < m.timestamp →
        am.timestamp ≤ m.timestamp) ∧
      deleteChatPair db u t =
        db.filter (fun m => !decide (m = um) && !decide (m = am)) ∧
      (deleteChatPair db u t).length + 2 = db.length := by
  have hsymm : Symmetric fun x y : ChatMessage => x.timestamp ≠ y.timestamp :=
    fun x y hxy h => hxy h.symm
  have hmatch : ∀ m ∈ db, userMatches u t m = decide (m = um) := by
    intro m hm
    by_cases hmeq : m = um
    · subst hmeq
      simp [userMatches, hu, hr, ht]
    · have hfalse : userMatches u t m = false := by
        cases hcase : userMatches u t m with
        | false => rfl
        | true =>
          exfalso
          have hfields : m.username = u ∧ m.role = "user" ∧ m.timestamp = t := by
            simpa [userMatches, Bool.and_eq_true, beq_iff_eq] using hcase
          have hmfu : m ∈ db.filter fun x => x.username == u :=
            List.mem_filter.mpr ⟨hm, by simp [hfields.1]⟩
          have humfu : um ∈ db.filter fun x => x.username == u :=
            List.mem_filter.mpr ⟨hum, by simp [hu]⟩
          exact (hU.forall hsymm hmfu humfu hmeq) (by rw [hfields.2.2, ht])
      rw [hfalse]
      simp [hmeq]
  have hdb1 : (db.filter fun m => !userMatches u t m) =
      db.filter fun m => !decide (m = um) :=
    List.filter_congr fun m hm => by rw [hmatch m hm]
  have hwum : w ≠ um := by
    intro he
    rw [he, hr] at hwr
    exact absurd hwr (by decide)
  have hwdb1 : w ∈ db.filter fun m => !decide (m = um) :=
    List.mem_filter.mpr ⟨hw, by simp [hwum]⟩
  have hwp : assistantAfter u t w = true := by
    simp [assistantAfter, hwu, hwr, hwt]
  obtain ⟨am, hmin, hamdb1, hamu, hamr, hamt, hammin⟩ :=
    exists_min_assistant hwdb1 hwp
  have hamdb : am ∈ db := List.mem_of_mem_filter hamdb1
  have humam : um ≠ am := by
    intro he
    rw [← he, hr] at hamr
    exact absurd hamr (by decide)
  have hmindb : ∀ m ∈ db, m.username = u → m.role = "assistant" →
      t < m.timestamp → am.timestamp ≤ m.timestamp := by
    intro m hm hmu hmr hmt
    have hmne : m ≠ um := by
      intro he; rw [he, hr] at hmr; exact absurd hmr (by decide)
    have hmdb1 : m ∈ db.filter fun x => !decide (x = um) :=
      List.mem_filter.mpr ⟨hm, by simp [hmne]⟩
    exact hammin m hmdb1 (by simp [assistantAfter, hmu, hmr, hmt])
  have hcum : db.countP (fun m => decide (m = um)) = 1 :=
    countP_eq_one_of_pairwise_ts hU hum hu
  have hcam : db.countP (fun m => decide (m = am)) = 1 :=
    countP_eq_one_of_pairwise_ts hU hamdb hamu
  have hcam1 : (db.filter fun m => !decide (m = um)).countP
      (fun m => decide (m = am)) = 1 := by
    have hle : (db.filter fun m => !decide (m = um)).countP
        (fun m => decide (m = am)) ≤ 1 := hcam ▸ countP_filter_le _ _ db
    have hpos : 0 < (db.filter fun m => !decide (m = um)).countP
        (fun m => decide (m = am)) :=
      List.countP_pos_iff.mpr ⟨am, hamdb1, by simp⟩
    omega
  have herase : (db.filter fun m => !decide (m = um)).eraseP
      (fun m => decide (m = am)) =
      db.filter fun m => !decide (m = um) && !decide (m = am) := by
    rw [eraseP_eq_filter_of_countP_le_one (le_of_eq hcam1), List.filter_filter]
    exact List.filter_congr fun m _ => by rw [Bool.and_comm]
  have hdel : deleteChatPair db u t =
      db.filter fun m => !decide (m = um) && !decide (m = am) := by
    simp only [deleteChatPair, hdb1, hmin]
    exact herase
  have hlen : (deleteChatPair db u t).length + 2 = db.length := by
    have hcompl : db.countP
        (fun m => decide ¬(!decide (m = um) && !decide (m = am)) = true) = 2 := by
      have heqp : (fun m : ChatMessage =>
          decide ¬(!decide (m = um) && !decide (m = am)) = true) =
          fun m => decide (m = um) || decide (m = am) := by
        funext m
        by_cases h1 : m = um <;> by_cases h2 : m = am <;> simp [h1, h2]
      rw [heqp, countP_disj_of_ne humam, hcum, hcam]
    have hsplit := List.length_eq_countP_add_countP
      (fun m : ChatMessage => !decide (m = um) && !decide (m = am)) db
    rw [hdel, ← List.countP_eq_length_filter]
    omega
  exact ⟨am, hamdb, hamu, hamr, hamt, hmindb, hdel, hlen⟩

/-- Concrete instance of C4: deleting alice's user message at timestamp 1
removes it together with the assistant reply at timestamp 2 and nothing else. -/
theorem c4_witness :
    ∃ am ∈ exDb4, am.username = "alice" ∧ am.role = "assistant" ∧
      1 < am.timestamp ∧
      (∀ m ∈ exDb4, m.username = "alice" → m.role = "assistant" →
        1 < m.timestamp → am.timestamp ≤ m.timestamp) ∧
      deleteChatPair exDb4 "alice" 1 =
        exDb4.filter (fun m =>
          !decide (m = ⟨"alice", "user", "q1", 1⟩) && !decide (m = am)) ∧
      (deleteChatPair exDb4 "alice" 1).length + 2 = exDb4.length :=
  c4_delete_pair_removes_exactly_the_pair exDb4 "alice" 1
    ⟨"alice", "user", "q1", 1⟩ (by decide) (by decide) rfl rfl rfl
    ⟨"alice", "assistant", "a1", 2⟩ (by decide) rfl rfl (by decide)

theorem loadChatHistory_mem {db : List ChatMessage} {u : String} {k : Nat}
    {e : HistEntry} (he : e ∈ loadChatHistory db u k) :
    ∃ m ∈ db, m.username = u ∧ e = m.toEntry := by
  have h1 := List.mem_of_mem_take he
  obtain ⟨m, hm, rfl⟩ := List.mem_map.mp h1
  have hm2 := (List.mem_insertionSort tsLE).mp hm
  obtain ⟨hmdb, husr⟩ := List.mem_filter.mp hm2
  exact ⟨m, hmdb, by simpa using husr, rfl⟩

theorem loadChatHistory_sorted (db : List ChatMessage) (u : String) (k : Nat) :
    (loadChatHistory db u k).Pairwise fun a b => a.timestamp ≤ b.timestamp := by
  have hs : (List.insertionSort tsLE (db.filter fun m => m.username == u)).Sorted
      tsLE := List.sorted_insertionSort tsLE _
  have hmap : ((List.insertionSort tsLE
      (db.filter fun m => m.username == u)).map ChatMessage.toEntry).Pairwise
      fun a b : HistEntry => a.timestamp ≤ b.timestamp :=
    List.Pairwise.map ChatMessage.toEntry (fun _ _ hab => hab) hs
  exact List.Pairwise.sublist (List.take_sublist _ _) hmap

theorem loadChatHistory_earliest {db : List ChatMessage} {u : String} {k : Nat}
    {m : ChatMessage} (hm : m ∈ db) (hu : m.username = u)
    (hnot : m.toEntry ∉ loadChatHistory db u k) :
    ∀ e ∈ loadChatHistory db u k, e.timestamp ≤ m.timestamp := by
  intro e he
  have hms : m ∈ List.insertionSort tsLE (db.filter fun x => x.username == u) :=
    (List.mem_insertionSort tsLE).mpr (List.mem_filter.mpr ⟨hm, by simp [hu]⟩)
  have hload : loadChatHistory db u k =
      ((List.insertionSort tsLE (db.filter fun x => x.username == u)).take k).map
        ChatMessage.toEntry := by
    rw [loadChatHistory, ← List.map_take]
  have hsorted : (List.insertionSort tsLE
      (db.filter fun x => x.username == u)).Sorted tsLE :=
    List.sorted_insertionSort tsLE _
  have hsorted2 : ((List.insertionSort tsLE
        (db.filter fun x => x.username == u)).take k ++
      (List.insertionSort tsLE (db.filter fun x => x.username == u)).drop k).Pairwise
      tsLE := by
    rw [List.take_append_drop]; exact hsorted
  have hms2 : m ∈ (List.insertionSort tsLE
        (db.filter fun x => x.username == u)).take k ++
      (List.insertionSort tsLE (db.filter fun x => x.username == u)).drop k := by
    rw [List.take_append_drop]; exact hms
  have hmdrop : m ∈ (List.insertionSort tsLE
      (db.filter fun x => x.username == u)).drop k := by
    rcases List.mem_append.mp hms2 with htake | hdrop
    · exact absurd (hload ▸ List.mem_map_of_mem ChatMessage.toEntry htake) hnot
    · exact hdrop
  rw [hload] at he
  obtain ⟨x, hxtake, rfl⟩ := List.mem_map.mp he
  exact (List.pairwise_append.mp hsorted2).2.2 x hxtake m hmdrop

theorem toEntry_mem_loadChatHistory_of_le {db : List ChatMessage} {u : String}
    {k : Nat} {m : ChatMessage} (hm : m ∈ db) (hu : m.username = u)
    (hlen : (db.filter fun x => x.username == u).length ≤ k) :
    m.toEntry ∈ loadChatHistory db u k := by
  have hms : m ∈ List.insertionSort tsLE (db.filter fun x => x.username == u) :=
    (List.mem_insertionSort tsLE).mpr (List.mem_filter.mpr ⟨hm, by simp [hu]⟩)
  have htake : ((List.insertionSort tsLE
      (db.filter fun x => x.username == u)).map ChatMessage.toEntry).take k =
      (List.insertionSort tsLE (db.filter fun x => x.username == u)).map
        ChatMessage.toEntry :=
    List.take_of_length_le (by
      rw [List.length_map, List.length_insertionSort]; exact hlen)
  rw [loadChatHistory, htake]
  exact List.mem_map_of_mem ChatMessage.toEntry hms

/-- Claim C3 counterexample: with messages at timestamps 1 and 2 and
`limit = 1`, `load_chat_history` returns the earliest entry (timestamp 1),
not the most recent one (timestamp 2) as the claim states. -/
theorem c3_counterexample :
    loadChatHistory exDb3 "alice" 1 = [⟨"user", "first", 1⟩] ∧
      loadChatHistory exDb3 "alice" 1 ≠ [⟨"assistant", "second", 2⟩] := by
  decide

/-- Claim C3 as amended: `history_for(u, limit=k)` returns at most `k`
messages in ascending timestamp order, but they are the EARLIEST `k` entries
of `u`'s log (`ORDER BY timestamp ASC LIMIT k`), not the most recent ones:
every entry outside the returned window has a timestamp at least as large as
every returned entry. -/
theorem c3_history_window_is_earliest (db : List ChatMessage) (u : String)
    (k : Nat) :
    (loadChatHistory db u k).length ≤ k ∧
    (loadChatHistory db u k).Pairwise (fun a b => a.timestamp ≤ b.timestamp) ∧
    (∀ e ∈ loadChatHistory db u k, ∃ m ∈ db, m.username = u ∧ e = m.toEntry) ∧
    (∀ m ∈ db, m.username = u → m.toEntry ∉ loadChatHistory db u k →
      ∀ e ∈ loadChatHistory db u k, e.timestamp ≤ m.timestamp) :=
  ⟨List.length_take_le k _, loadChatHistory_sorted db u k,
    fun _ he => loadChatHistory_mem he,
    fun _ hm hu hnot => loadChatHistory_earliest hm hu hnot⟩

/-- Concrete instance of the amended C3: on `exDb3` with `limit = 1` the
omitted message (timestamp 2) is no earlier than the returned entry. -/
theorem c3_witness :
    (⟨"alice", "assistant", "second", 2⟩ : ChatMessage) ∈ exDb3 ∧
      (⟨"alice", "assistant", "second", 2⟩ : ChatMessage).toEntry ∉
        loadChatHistory exDb3 "alice" 1 ∧
      (⟨"user", "first", 1⟩ : HistEntry).timestamp ≤
        (⟨"alice", "assistant", "second", 2⟩ : ChatMessage).timestamp :=
  ⟨by decide, by decide,
    (c3_history_window_is_earliest exDb3 "alice" 1).2.2.2
      ⟨"alice", "assistant", "second", 2⟩ (by decide) rfl (by decide)
      ⟨"user", "first", 1⟩ (by decide)⟩

/-- Claim C10: `get_ai_response` loads history with the fixed default cap of
50, so when a user's log holds more than 50 messages the prompt embeds exactly
50 entries — the earliest 50 by timestamp — and at least one message of the
user is silently omitted, every omitted message being no earlier than every
embedded one. Per-user timestamp uniqueness is the store invariant. -/
theorem c10_prompt_embeds_only_earliest_fifty (historyContext : String)
    (db : List ChatMessage) (u s : String)
    (hU : (db.filter fun m => m.username == u).Pairwise
      fun x y => x.timestamp ≠ y.timestamp)
    (hlen : 50 < (db.filter fun m => m.username == u).length) :
    getAiMessages historyContext db u s =
      ⟨"system", systemMsg historyContext, none⟩ ::
        ((loadChatHistory db u 50).map HistEntry.toPrompt ++
          [⟨"user", s, none⟩]) ∧
    (loadChatHistory db u 50).length = 50 ∧
    (∃ m ∈ db, m.username = u ∧ m.toEntry ∉ loadChatHistory db u 50) ∧
    (∀ m ∈ db, m.username = u → m.toEntry ∉ loadChatHistory db u 50 →
      ∀ e ∈ loadChatHistory db u 50, e.timestamp ≤ m.timestamp) := by
  refine ⟨rfl, ?_, ?_, fun _ hm hu hnot => loadChatHistory_earliest hm hu hnot⟩
  · rw [loadChatHistory, List.length_take, List.length_map,
      List.length_insertionSort]
    omega
  · have hslen : 50 < (List.insertionSort tsLE
        (db.filter fun x => x.username == u)).length := by
      rw [List.length_insertionSort]; exact hlen
    have hdropne : (List.insertionSort tsLE
        (db.filter fun x => x.username == u)).drop 50 ≠ [] :=
      List.ne_nil_of_length_pos (by rw [List.length_drop]; omega)
    obtain ⟨m, hmdrop⟩ := List.exists_mem_of_ne_nil _ hdropne
    have hms := List.mem_of_mem_drop hmdrop
    obtain ⟨hmdb, hmu⟩ := List.mem_filter.mp ((List.mem_insertionSort tsLE).mp hms)
    have hpairne : (List.insertionSort tsLE
        (db.filter fun x => x.username == u)).Pairwise
        fun x y => x.timestamp ≠ y.timestamp :=
      (List.Perm.pairwise_iff (fun hxy h => hxy h.symm)
        (List.perm_insertionSort tsLE _)).mpr hU
    have hcross := (List.pairwise_append.mp (by
      rw [List.take_append_drop]; exact hpairne :
        ((List.insertionSort tsLE (db.filter fun x => x.username == u)).take 50 ++
          (List.insertionSort tsLE
            (db.filter fun x => x.username == u)).drop 50).Pairwise
          fun x y => x.timestamp ≠ y.timestamp)).2.2
    refine ⟨m, hmdb, by simpa using hmu, fun hin => ?_⟩
    rw [loadChatHistory, ← List.map_take] at hin
    obtain ⟨x, hxtake, hxe⟩ := List.mem_map.mp hin
    have hts : x.timestamp = m.timestamp := congrArg HistEntry.timestamp hxe
    exact hcross x hxtake m hmdrop hts

/-- Concrete instance of C10: with 51 messages of user `a` the window drops
one of them. -/
theorem c10_witness :
    ((bigDb51.filter fun m => m.username == "a").Pairwise
      fun x y => x.timestamp ≠ y.timestamp) ∧
    (50 < (bigDb51.filter fun m => m.username == "a").length) ∧
    ((loadChatHistory bigDb51 "a" 50).length = 50 ∧
      (∃ m ∈ bigDb51, m.username = "a" ∧
        m.toEntry ∉ loadChatHistory bigDb51 "a" 50)) :=
  ⟨by decide, by decide,
    (c10_prompt_embeds_only_earliest_fifty "ctx" bigDb51 "a" "q"
      (by decide) (by decide)).2.1,
    (c10_prompt_embeds_only_earliest_fifty "ctx" bigDb51 "a" "q"
      (by decide) (by decide)).2.2.1⟩

/-- Claim C8 counterexample: with 50 prior messages of user `a` (timestamps
1..50), a new turn at timestamp 51 sends a prompt that contains the new input
`HELP` only once — the 50-earliest history window omits the just-persisted
message, so it is not duplicated. -/
theorem c8_counterexample :
    (exDb8.filter fun m => m.username == "a").length = 50 ∧
    (turnPromptMessages "ctx" exDb8 "a" "HELP" 51).countP
      (fun pm => pm.content == "HELP") = 1 ∧
    (⟨"a", "user", "HELP", 51⟩ : ChatMessage).toEntry ∉
      loadChatHistory (saveChatToDb exDb8 "a" "user" "HELP" 51) "a" 50 := by
  refine ⟨by decide, by decide, by decide⟩

/-- Claim C8 as amended: on every turn the user message is persisted before
prompt assembly (the prompt is built over the store extended with it), and the
prompt then contains the new input twice — once inside the loaded history and
once as the trailing user message — provided the user's prior log holds at
most 49 messages, so that the 50-earliest window still reaches the new
message; with 50 or more prior messages the window omits it. -/
theorem c8_user_message_persisted_and_duplicated (historyContext : String)
    (db : List ChatMessage) (u p : String) (t : Nat)
    (hlen : (db.filter fun m => m.username == u).length ≤ 49) :
    turnPromptMessages historyContext db u p t =
      getAiMessages historyContext (db ++ [⟨u, "user", p, t⟩]) u p ∧
    (⟨u, "user", p, t⟩ : ChatMessage).toEntry ∈
      loadChatHistory (db ++ [⟨u, "user", p, t⟩]) u 50 ∧
    (turnPromptMessages historyContext db u p t).getLast? =
      some ⟨"user", p, none⟩ := by
  refine ⟨rfl, ?_, ?_⟩
  · apply toEntry_mem_loadChatHistory_of_le (by simp) rfl
    rw [List.filter_append, List.length_append]
    have : ([⟨u, "user", p, t⟩] : List ChatMessage).filter
        (fun x => x.username == u) = [⟨u, "user", p, t⟩] := by simp
    rw [this]
    simpa using hlen
  · rw [turnPromptMessages, getAiMessages, ← List.cons_append,
      List.getLast?_concat]

/-- Concrete instance of the amended C8: with only 2 prior alice messages the
new input appears both inside the history window and as the trailing message. -/
theorem c8_witness :
    (exDb3.filter fun m => m.username == "alice").length ≤ 49 ∧
      ((⟨"alice", "user", "again", 10⟩ : ChatMessage).toEntry ∈
        loadChatHistory (exDb3 ++ [⟨"alice", "user", "again", 10⟩]) "alice" 50 ∧
      (turnPromptMessages "ctx" exDb3 "alice" "again" 10).getLast? =
        some ⟨"user", "again", none⟩) :=
  ⟨by decide,
    (c8_user_message_persisted_and_duplicated "ctx" exDb3 "alice" "again" 10
      (by decide)).2.1,
    (c8_user_message_persisted_and_duplicated "ctx" exDb3 "alice" "again" 10
      (by decide)).2.2⟩

/-- Claim C7: the `messages` list built by `get_ai_response` is exactly one
system message first, then the eligible stored history (the capped window, in
order), then exactly one trailing user message carrying the new input; under
the store invariant that persisted roles are only `user` and `assistant`, the
system role occurs exactly once in the list. -/
theorem c7_prompt_is_system_history_user (historyContext : String)
    (db : List ChatMessage) (u s : String)
    (hroles : ∀ m ∈ db, m.role ≠ "system") :
    getAiMessages historyContext db u s =
      ⟨"system", systemMsg historyContext, none⟩ ::
        ((loadChatHistory db u 50).map HistEntry.toPrompt ++
          [⟨"user", s, none⟩]) ∧
    (getAiMessages historyContext db u s).head? =
      some ⟨"system", systemMsg historyContext, none⟩ ∧
    (getAiMessages historyContext db u s).countP
      (fun pm => pm.role == "system") = 1 ∧
    (getAiMessages historyContext db u s).getLast? = some ⟨"user", s, none⟩ := by
  refine ⟨rfl, rfl, ?_, ?_⟩
  · rw [getAiMessages, List.countP_cons, List.countP_append]
    have h1 : ((loadChatHistory db u 50).map HistEntry.toPrompt).countP
        (fun pm => pm.role == "system") = 0 := by
      rw [List.countP_eq_zero]
      intro pm hpm
      obtain ⟨e, he, rfl⟩ := List.mem_map.mp hpm
      obtain ⟨m, hmdb, _, rfl⟩ := loadChatHistory_mem he
      simpa [HistEntry.toPrompt, ChatMessage.toEntry] using hroles m hmdb
    rw [h1]
    simp
  · rw [getAiMessages, ← List.cons_append, List.getLast?_concat]

/-- Concrete instance of C7 on the two-message store `exDb3`. -/
theorem c7_witness :
    (∀ m ∈ exDb3, m.role ≠ "system") ∧
      ((getAiMessages "ctx" exDb3 "alice" "next").countP
        (fun pm => pm.role == "system") = 1 ∧
      (getAiMessages "ctx" exDb3 "alice" "next").getLast? =
        some ⟨"user", "next", none⟩) :=
  ⟨by decide,
    (c7_prompt_is_system_history_user "ctx" exDb3 "alice" "next"
      (by decide)).2.2.1,
    (c7_prompt_is_system_history_user "ctx" exDb3 "alice" "next"
      (by decide)).2.2.2⟩

/-- Claim C1 counterexample: submitting the off-topic input
`what is the weather` (the guardrail scenario input of the spec) still invokes
the external collaborator, and the surfaced reply is the collaborator's
output, not a fixed refusal text — the deployed turn handler has no keyword
gate at all. -/
theorem c1_counterexample :
    (handleChatTurn [] "alice" "what is the weather" 1 2
      (Except.ok "llm reply")).llmInvoked = true ∧
    (handleChatTurn [] "alice" "what is the weather" 1 2
      (Except.ok "llm reply")).surfaced = Except.ok "llm reply" :=
  ⟨rfl, rfl⟩

/-- Claim C1 as amended: the chat turn handler contains no keyword guardrail:
every user turn, whatever the input text, invokes `get_ai_response` (and so
the external collaborator), and what the turn surfaces is exactly the
collaborator's outcome — no static refusal path exists. -/
theorem c1_every_turn_invokes_collaborator (db : List ChatMessage)
    (u p : String) (t1 t2 : Nat) (llm : Except String String) :
    (handleChatTurn db u p t1 t2 llm).llmInvoked = true ∧
    (handleChatTurn db u p t1 t2 llm).surfaced = llm := by
  cases llm <;> exact ⟨rfl, rfl⟩

/-- Claim C5 counterexample: when the external call raises (`timeout`), the
turn handler surfaces the raw error — the exception propagates, no
assistant-role error message is persisted — while the user message saved at
the start of the turn is in the store. -/
theorem c5_counterexample :
    (handleChatTurn [] "alice" "help me" 1 2
      (Except.error "timeout")).surfaced = Except.error "timeout" ∧
    ((handleChatTurn [] "alice" "help me" 1 2
      (Except.error "timeout")).chats.filter
        fun m => m.role == "assistant") = [] ∧
    (handleChatTurn [] "alice" "help me" 1 2 (Except.error "timeout")).chats =
      [⟨"alice", "user", "help me", 1⟩] :=
  ⟨rfl, rfl, rfl⟩

/-- Claim C5 as amended: the Session Controller does not catch external-call
failures: the error propagates out of the turn (no assistant-role message —
error text or otherwise — is persisted for the turn), but the user message
persisted at the start of the turn remains in the Conversation Store. -/
theorem c5_llm_failure_uncaught_user_message_kept (db : List ChatMessage)
    (u p : String) (t1 t2 : Nat) (e : String) :
    (handleChatTurn db u p t1 t2 (Except.error e)).chats =
      db ++ [⟨u, "user", p, t1⟩] ∧
    (handleChatTurn db u p t1 t2 (Except.error e)).surfaced = Except.error e ∧
    ((handleChatTurn db u p t1 t2 (Except.error e)).chats.filter
        fun m => m.role == "assistant") =
      (db.filter fun m => m.role == "assistant") ∧
    (⟨u, "user", p, t1⟩ : ChatMessage) ∈
      (handleChatTurn db u p t1 t2 (Except.error e)).chats := by
  have hch : (handleChatTurn db u p t1 t2 (Except.error e)).chats =
      db ++ [⟨u, "user", p, t1⟩] := rfl
  refine ⟨rfl, rfl, ?_, ?_⟩
  · rw [hch, List.filter_append]
    simp
  · rw [hch]
    simp
